import Mathlib

/-!
Verification development for `github-log` (src/src/github_log/__init__.py).

The development shallowly embeds the event-retrieval-and-filtering pipeline of
the tool: the recursive attribution traversal `find_user_logins`, the
event-type filter, the day-window filter and its pagination stop signal inside
`get_method_events_date`, the feed orchestration of `get_events_date`, and the
formatters (the line-prefix builder get_prefix, `push_formatter`,
`create_formatter`, ...).

Modelling conventions, fixed once here:

* JSON values are the inductive `JValue` (strings, objects, arrays, JSON null,
  and `dt` for the local-datetime value that the pipeline writes back into
  `event["created_at"]`).  Numeric and boolean JSON scalars are omitted: the
  traversal treats them as leaves exactly like `null`, and no claim involves
  them.
* Instants are integers (seconds since an arbitrary epoch).  The feed
  timestamps are parsed with the format `%Y-%m-%dT%H:%M:%SZ`, so every event
  instant has whole-second granularity.  `local_tz` in the source is
  `datetime.now().astimezone().tzinfo`, a fixed-offset timezone, and
  `astimezone` never changes the instant, so comparisons between the aware
  datetimes `event_dt`, `start_dt`, `end_dt` are plain instant comparisons.
  `start_dt` (local midnight of the target day) is the instant `start_s`;
  `end_dt` is `datetime.max.time()`, i.e. `start_s + 86399.999999` seconds;
  on whole-second instants the inclusive comparison `event_dt <= end_dt`
  coincides with `created_at <= start_s + 86399`, which is how the window end
  is embedded.
* Python string operations used by the source (`str.lower`, `str.replace`,
  `str.split`) are embedded as executable functions over `List Char` so that
  every concrete computation reduces inside the kernel.  `str.lower` is the
  per-character ASCII lowering (event type names and the filter fragments are
  ASCII).
* Code that raises an exception (missing dictionary key, attribute error on a
  wrongly-typed field) is embedded as `Option`/`Except` failure: an exception
  escaping a formatter aborts the whole run before anything is printed, so
  `none` is the faithful output-level value.
* The page fetch `method(page)` is an opaque `Nat → Except Unit (List RawEvent)`;
  `Except.error` stands for `requests.exceptions.RequestException`.  The
  `while fetch_more` loop has no intrinsic bound, so the paging driver takes a
  fuel argument bounding how many pages it may request; all theorems hold for
  every fuel.
-/

/-! ## Python string primitives (executable embeddings) -/

/-- Python `str.lower()` restricted to per-character lowering (ASCII). -/
def str_lower (s : String) : String := ⟨s.data.map Char.toLower⟩

/-- Worker for `str_replace`: leftmost, non-overlapping replacement of every
occurrence of `pat` by `repl`, driven by fuel (one unit per character of the
input, which suffices because every step consumes at least one character when
`pat` is nonempty; the development only uses the nonempty patterns `"Event"`
and `"\n"`). -/
def replace_go (pat repl : List Char) : Nat → List Char → List Char
  | 0, l => l
  | _ + 1, [] => []
  | fuel + 1, c :: rest =>
      if pat.isPrefixOf (c :: rest) then
        repl ++ replace_go pat repl fuel ((c :: rest).drop pat.length)
      else
        c :: replace_go pat repl fuel rest

/-- Python `s.replace(pat, repl)` for nonempty `pat`. -/
def str_replace (s pat repl : String) : String :=
  ⟨replace_go pat.data repl.data (s.data.length + 1) s.data⟩

/-- Worker for `str_split`, fuel-driven like `replace_go`. -/
def split_go (sep : List Char) : Nat → List Char → List Char → List (List Char)
  | 0, acc, l => [acc.reverse ++ l]
  | _ + 1, acc, [] => [acc.reverse]
  | fuel + 1, acc, c :: rest =>
      if sep.isPrefixOf (c :: rest) then
        acc.reverse :: split_go sep fuel [] ((c :: rest).drop sep.length)
      else
        split_go sep fuel (c :: acc) rest

/-- Python `s.split(sep)` for a nonempty separator: splits at every occurrence
and keeps empty pieces, so the result is never the empty list. -/
def str_split (s sep : String) : List String :=
  (split_go sep.data (s.data.length + 1) [] s.data).map fun l => ⟨l⟩

/-! ## JSON values -/

mutual
/-- A JSON-like value as handled by the source: strings, objects, arrays,
null, plus `dt`, the timezone-aware datetime that
`event["created_at"] = event_dt` stores back into the event.  Objects keep
their key insertion order, like Python dicts. -/
inductive JValue where
  | str : String → JValue
  | dt : Int → JValue
  | null : JValue
  | obj : JFields → JValue
  | arr : JItems → JValue
deriving DecidableEq

/-- The ordered fields of a JSON object. -/
inductive JFields where
  | nil : JFields
  | cons : String → JValue → JFields → JFields
deriving DecidableEq

/-- The elements of a JSON array. -/
inductive JItems where
  | nil : JItems
  | cons : JValue → JItems → JItems
deriving DecidableEq
end

/-- Python `d[k]` / `d.get(k)` on a dict: first (unique) matching key. -/
def JFields.lookup : JFields → String → Option JValue
  | .nil, _ => none
  | .cons k v rest, key => if k = key then some v else rest.lookup key

/-- Field access `j[k]`: `none` when `j` is not an object or lacks the key
(Python raises `KeyError`/`TypeError`/`AttributeError` there). -/
def JValue.get : JValue → String → Option JValue
  | .obj fs, k => fs.lookup k
  | _, _ => none

/-- Python dict assignment `d[k] = v`: overwrite in place, or append a new
field at the end. -/
def JFields.set : JFields → String → JValue → JFields
  | .nil, k, v => .cons k v .nil
  | .cons k0 v0 rest, k, v =>
      if k0 = k then .cons k0 v rest else .cons k0 v0 (rest.set k v)

/-- List view of an array's elements. -/
def JItems.toList : JItems → List JValue
  | .nil => []
  | .cons v rest => v :: rest.toList

/-! ## Attribution traversal (`find_user_logins`, source lines 120-132)

The Python function mutates two accumulator lists; the embedding returns the
pair `(logins, emails)` accumulated in traversal order.  The source's control
flow for a dict entry `(k, v)` is

```
if k == "login": logins.append(v)
if k == "email": emails.append(v)
elif isinstance(v, dict): recurse into v
elif isinstance(v, list): recurse into each element of v
```

so the `elif` descent is skipped exactly when `k == "email"`; a `"login"` key
both records its value and (the first `if` being separate) still descends.
List elements are passed back through `find_user_logins`, which returns
immediately on anything that is not a dict, so arrays nested directly inside
arrays are not traversed — exactly as in the source. -/

mutual
def find_user_logins : JValue → List JValue × List JValue
  | .obj kvs => find_obj kvs
  | _ => ([], [])

def find_obj : JFields → List JValue × List JValue
  | .nil => ([], [])
  | .cons k v rest =>
      let l0 : List JValue := if k = "login" then [v] else []
      let pr : List JValue × List JValue :=
        if k = "email" then ([], [v])
        else
          match v with
          | .obj kvs => find_obj kvs
          | .arr items => find_arr items
          | _ => ([], [])
      let tl := find_obj rest
      (l0 ++ pr.1 ++ tl.1, pr.2 ++ tl.2)

def find_arr : JItems → List JValue × List JValue
  | .nil => ([], [])
  | .cons item rest =>
      let h := find_user_logins item
      let t := find_arr rest
      (h.1 ++ t.1, h.2 ++ t.2)
end

/-- What the source's `elif` chain does with a value under a key other than
`"email"`: descend into dicts, map over lists (dict elements only), ignore
scalars. -/
def descend_value : JValue → List JValue × List JValue
  | .obj kvs => find_obj kvs
  | .arr items => find_arr items
  | _ => ([], [])

/-! ## The pipeline (`get_events_date` / `get_method_events_date`) -/

/-- The immutable per-run data of `GitHubAPI` plus the precomputed day-window
start: `current_user` (login of the authenticated user), `emails` (all
registered addresses), `events_filter` (the lowercased fragment list computed
on source line 66), and `start_s`, the instant of local midnight of the
target day (`start_dt`). -/
structure Config where
  current_user : String
  emails : List String
  events_filter : List String
  start_s : Int

/-- The instant of `end_dt` at whole-second granularity: the last second of
the target local day (see the header note on `datetime.max.time()`). -/
def day_end_s (cfg : Config) : Int := cfg.start_s + 86399

/-- Source line 66: `[e.lower() for e in events_filter.split(",") if e != ""]`. -/
def parse_events_filter (s : String) : List String :=
  ((str_split s ",").filter fun e => e ≠ "").map str_lower

/-- An event as the pipeline reads it: `type` mirrors `event["type"]`,
`created_at` is the instant parsed from `event["created_at"]` (UTC, whole
seconds), and `body` is the full JSON record, which is what the attribution
traversal walks. -/
structure RawEvent where
  type : String
  created_at : Int
  body : JValue
deriving DecidableEq

/-- Source lines 91-95: the event-type filter.  The event is kept iff the
filter list is empty, or the lowercased type is listed, or the type with every
occurrence of `"Event"` removed (Python `str.replace`) and then lowercased is
listed. -/
def type_ok (flt : List String) (ty : String) : Bool :=
  flt.isEmpty || flt.contains (str_lower ty)
    || flt.contains (str_lower (str_replace ty "Event" ""))

/-- Source lines 98-104: the attribution filter.  The event is kept iff the
resolved login occurs among the collected login values, or some registered
email occurs among the collected email values (`set(self.emails).intersection(emails)`
nonempty; the source would raise on unhashable collected values, which are
outside every claim, so the embedding compares JSON values directly). -/
def attribution_ok (cfg : Config) (e : RawEvent) : Bool :=
  let collected := find_user_logins e.body
  collected.1.contains (.str cfg.current_user)
    || cfg.emails.any fun m => collected.2.contains (.str m)

/-- The conjunction of the two filters, in source order (lines 91-104): only
events passing both reach the timestamp conversion and the window test. -/
def passes (cfg : Config) (e : RawEvent) : Bool :=
  type_ok cfg.events_filter e.type && attribution_ok cfg e

/-- Source line 115: `start_dt <= event_dt <= end_dt`, inclusive at both ends. -/
def in_window (cfg : Config) (e : RawEvent) : Bool :=
  decide (cfg.start_s ≤ e.created_at) && decide (e.created_at ≤ day_end_s cfg)

/-- Source line 113: `event_dt < start_dt`, the pagination stop condition. -/
def before_window (cfg : Config) (e : RawEvent) : Bool :=
  decide (e.created_at < cfg.start_s)

/-- One iteration of the `for event in events` body (source lines 90-116) on
the state (events yielded so far on this page, `fetch_more`): filtered events
are skipped; otherwise an event strictly before the window clears
`fetch_more`, and an in-window event is yielded.  Neither test short-circuits
the loop. -/
def process_event (cfg : Config) (st : List RawEvent × Bool) (e : RawEvent) :
    List RawEvent × Bool :=
  if passes cfg e then
    let st1 := if before_window cfg e then (st.1, false) else st
    if in_window cfg e then (st1.1 ++ [e], st1.2) else st1
  else st

/-- Processing of one fetched page: the `for` loop of source lines 90-116,
entered with `fetch_more = True`.  Returns the events yielded from this page
(in page order) and the `fetch_more` flag after the page. -/
def process_page (cfg : Config) (events : List RawEvent) : List RawEvent × Bool :=
  events.foldl (process_event cfg) ([], true)

/-- The `while fetch_more` loop of `get_method_events_date` (source lines
80-117), started at `page`, allowed to request at most `fuel` pages.  Returns
`(events yielded, pages requested, events fetched)`.  A failing fetch prints
to stderr and `break`s (lines 85-89): the page counts as requested, nothing is
fetched from it, and no later page is requested.  Otherwise the page is
processed and, when `fetch_more` survived the page, `page + 1` is requested
next (`page += 1`, line 117): note that an empty or fully-skipped page leaves
`fetch_more` untouched. -/
def run_from (cfg : Config) (method : Nat → Except Unit (List RawEvent)) :
    Nat → Nat → List RawEvent × List Nat × List RawEvent
  | 0, _ => ([], [], [])
  | fuel + 1, page =>
      match method page with
      | .error _ => ([], [page], [])
      | .ok events =>
          let pr := process_page cfg events
          if pr.2 then
            let rec_ := run_from cfg method fuel (page + 1)
            (pr.1 ++ rec_.1, page :: rec_.2.1, events ++ rec_.2.2)
          else (pr.1, [page], events)

/-- `get_method_events_date` for one feed: pagination starts at page 1
(source line 81). -/
def run_feed (cfg : Config) (method : Nat → Except Unit (List RawEvent))
    (fuel : Nat) : List RawEvent × List Nat × List RawEvent :=
  run_from cfg method fuel 1

/-- `get_events_date` (source lines 57-78): the personal feed followed by each
configured organization feed, every feed's yielded events concatenated in
order (`yield from`). -/
def get_events_date (cfg : Config)
    (feeds : List (Nat → Except Unit (List RawEvent))) (fuel : Nat) :
    List RawEvent :=
  (feeds.map fun f => (run_feed cfg f fuel).1).flatten

/-! ## Formatters (source lines 135-218)

Formatters consume the normalized event: the dict whose `created_at` value
was overwritten with the local datetime (`JValue.dt`).  A missing or
wrongly-typed field raises in Python; since an exception escaping a formatter
aborts the run before any line is printed, formatters here return `Option`,
with `none` for every such raise.  The textual rendering of the stored
datetime and of a raw payload (Python `str()` / `repr()` inside f-strings) is
abstracted by `dt_display` and `jrepr`; no claim depends on their exact
text. -/

/-- Decimal digits of a natural number (fuel-driven). -/
def nat_dec_go : Nat → Nat → List Char
  | 0, _ => []
  | _ + 1, 0 => []
  | fuel + 1, n => nat_dec_go fuel (n / 10) ++ [Char.ofNat (48 + n % 10)]

/-- Decimal rendering of a natural number. -/
def nat_dec (n : Nat) : String := if n = 0 then "0" else ⟨nat_dec_go (n + 1) n⟩

/-- Abstracted rendering of the normalized local datetime: the decimal
instant. -/
def dt_display (i : Int) : String :=
  if i < 0 then "-" ++ nat_dec i.natAbs else nat_dec i.natAbs

mutual
/-- Abstracted rendering of a raw JSON value (stands in for Python `repr`,
used only by the fallback formatter, whose exact text no claim mentions). -/
def jrepr : JValue → String
  | .str s => "\"" ++ s ++ "\""
  | .dt i => dt_display i
  | .null => "None"
  | .obj fs => "\x7b" ++ jrepr_fields fs ++ "\x7d"
  | .arr items => "[" ++ jrepr_items items ++ "]"

def jrepr_fields : JFields → String
  | .nil => ""
  | .cons k v .nil => "\"" ++ k ++ "\": " ++ jrepr v
  | .cons k v rest => "\"" ++ k ++ "\": " ++ jrepr v ++ ", " ++ jrepr_fields rest

def jrepr_items : JItems → String
  | .nil => ""
  | .cons v .nil => jrepr v
  | .cons v rest => jrepr v ++ ", " ++ jrepr_items rest
end

/-- Source lines 135-147, `get_pretty_event_type`'s lookup table with the raw
type as default. -/
def pretty_label (t : String) : String :=
  match t with
  | "DeleteEvent" => "Delete"
  | "PushEvent" => "Push"
  | "PullRequestEvent" => "PR"
  | "CreateEvent" => "Create"
  | "ForkEvent" => "Fork"
  | "ReleaseEvent" => "Release"
  | "PullRequestReviewEvent" => "PR Review"
  | "PullRequestReviewCommentEvent" => "PR Comment"
  | "IssueCommentEvent" => "Issue Comment"
  | _ => t

/-- `get_pretty_event_type(event)`: reads `event["type"]` (raising when
absent); a non-string type is outside the modelled fragment. -/
def get_pretty_event_type (e : JValue) : Option String :=
  match e.get "type" with
  | some (.str t) => some (pretty_label t)
  | _ => none

/-- `event['actor']['login']` (source lines 153-154), both accesses raising
when missing; a non-string login is outside the modelled fragment. -/
def actor_login (e : JValue) : Option String :=
  match e.get "actor" with
  | some a =>
      match a.get "login" with
      | some (.str s) => some s
      | _ => none
  | none => none

/-- `event['repo']['name']` (source lines 153-154, 171). -/
def repo_name (e : JValue) : Option String :=
  match e.get "repo" with
  | some r =>
      match r.get "name" with
      | some (.str s) => some s
      | _ => none
  | none => none

/-- The `{event['created_at']}` fragment of the prefix: the normalized
datetime is rendered via `dt_display`; a leftover string renders as itself
(f-strings render any value). -/
def created_at_display (e : JValue) : Option String :=
  match e.get "created_at" with
  | some (.dt i) => some (dt_display i)
  | some (.str s) => some s
  | _ => none

/-- Source line 151: `(event.get("payload", {}).get("ref") or "").split("/")[-1]`.
A missing `payload` key defaults to `{}`, a missing `ref` key or a JSON null
`ref` gives `""` (so no branch component); a present string is split on `"/"`
and the last piece taken.  A non-dict event or payload, or a non-string
non-null `ref`, raises (`none`). -/
def ref_branch (e : JValue) : Option String :=
  match e with
  | .obj fs =>
      match fs.lookup "payload" with
      | none => some ""
      | some (.obj pfs) =>
          match pfs.lookup "ref" with
          | none => some ""
          | some (.str s) => some ((str_split s "/").getLastD "")
          | some .null => some ""
          | some _ => none
      | some _ => none
  | _ => none

/-- Embeds get_prefix (source lines 150-154): timestamp, actor login, pretty type,
repository name, and `:branch` exactly when the extracted branch is
non-empty. -/
def get_prefix (e : JValue) : Option String :=
  match ref_branch e, created_at_display e, actor_login e,
      get_pretty_event_type e, repo_name e with
  | some b, some ca, some al, some pt, some rn =>
      if b ≠ "" then some (ca ++ " " ++ al ++ "/" ++ pt ++ "\t" ++ rn ++ ":" ++ b)
      else some (ca ++ " " ++ al ++ "/" ++ pt ++ "\t" ++ rn)
  | _, _, _, _, _ => none

/-- One line of `push_formatter` (source line 159): the shared prefix, then
the commit's message with every newline replaced by a comma. -/
def commit_line (pre : String) (commit : JValue) : Option String :=
  match commit.get "message" with
  | some (.str m) => some (pre ++ " - " ++ str_replace m "\n" ",")
  | _ => none

/-- All-or-nothing mapping over a list (a raise anywhere in the Python loop
aborts the run). -/
def traverse_opt (f : α → Option β) : List α → Option (List β)
  | [] => some []
  | x :: xs =>
      match f x, traverse_opt f xs with
      | some y, some ys => some (y :: ys)
      | _, _ => none

/-- `push_formatter` (source lines 157-159): one line per element of
`payload.commits`.  With an empty commits list the loop body — and hence
get_prefix — never runs, so the result is `some []` unconditionally, as in
the source.  Iteration over a non-array `commits` value (Python would iterate
a string's characters or a dict's keys) is outside the modelled fragment. -/
def push_formatter (e : JValue) : Option (List String) :=
  match e.get "payload" with
  | some p =>
      match p.get "commits" with
      | some (.arr items) =>
          traverse_opt (fun c => ( get_prefix e).bind fun pre => commit_line pre c)
            items.toList
      | _ => none
  | none => none

/-- `pull_request_formatter` (source lines 162-165); note the missing space
after the `-` before the action, exactly as in the source f-string. -/
def pull_request_formatter (e : JValue) : Option (List String) :=
  match e.get "payload" with
  | some p =>
      match get_prefix e, p.get "action", p.get "pull_request" with
      | some pre, some (.str act), some pr =>
          match pr.get "title" with
          | some (.str t) => some [pre ++ " -" ++ act ++ " - " ++ t]
          | _ => none
      | _, _, _ => none
  | none => none

/-- `create_formatter` (source lines 168-176), also used for delete events:
`ref_type == "repository"` renders the repository name, anything else renders
the ref-type and `payload['ref'] or ''` (a JSON null ref renders as the empty
string; the `ref` key must exist, direct indexing).  A non-string `ref_type`
or a non-string non-null `ref` is outside the modelled fragment. -/
def create_formatter (e : JValue) : Option (List String) :=
  match e.get "payload" with
  | some p =>
      match p.get "ref_type", get_prefix e with
      | some (.str rt), some pre =>
          if rt = "repository" then
            match repo_name e with
            | some rn => some [pre ++ " - " ++ rt ++ " " ++ rn]
            | none => none
          else
            match p.get "ref" with
            | some (.str s) => some [pre ++ " - " ++ rt ++ " " ++ s]
            | some .null => some [pre ++ " - " ++ rt ++ " "]
            | _ => none
      | _, _ => none
  | none => none

/-- `pull_request_review_comment_formatter` (source lines 179-182). -/
def pull_request_review_comment_formatter (e : JValue) : Option (List String) :=
  match e.get "payload" with
  | some p =>
      match get_prefix e, p.get "pull_request" with
      | some pre, some pr =>
          match pr.get "title" with
          | some (.str t) => some [pre ++ " - on PR " ++ t]
          | _ => none
      | _, _ => none
  | none => none

/-- `pull_request_review_formatter` (source lines 185-188), same shape. -/
def pull_request_review_formatter (e : JValue) : Option (List String) :=
  match e.get "payload" with
  | some p =>
      match get_prefix e, p.get "pull_request" with
      | some pre, some pr =>
          match pr.get "title" with
          | some (.str t) => some [pre ++ " - on PR " ++ t]
          | _ => none
      | _, _ => none
  | none => none

/-- `issue_comment_formatter` (source lines 191-194). -/
def issue_comment_formatter (e : JValue) : Option (List String) :=
  match e.get "payload" with
  | some p =>
      match get_prefix e, p.get "issue" with
      | some pre, some iss =>
          match iss.get "title" with
          | some (.str t) => some [pre ++ " - on Issue " ++ t]
          | _ => none
      | _, _ => none
  | none => none

/-- `default_formatter` (source lines 197-198): prefix plus the rendered raw
payload. -/
def default_formatter (e : JValue) : Option (List String) :=
  match get_prefix e, e.get "payload" with
  | some pre, some p => some [pre ++ " - " ++ jrepr p]
  | _, _ => none

/-- `activity_formatter` (source lines 201-211): type-keyed dispatch with the
fallback renderer for unrecognized types.  A non-string type is outside the
modelled fragment (an unhashable type value would raise in the source). -/
def activity_formatter (e : JValue) : Option (List String) :=
  match e.get "type" with
  | some (.str t) =>
      (match t with
       | "PushEvent" => push_formatter
       | "PullRequestEvent" => pull_request_formatter
       | "CreateEvent" => create_formatter
       | "DeleteEvent" => create_formatter
       | "PullRequestReviewEvent" => pull_request_review_formatter
       | "PullRequestReviewCommentEvent" => pull_request_review_comment_formatter
       | "IssueCommentEvent" => issue_comment_formatter
       | _ => default_formatter) e
  | _ => none

/-- The in-place mutation `event["created_at"] = event_dt` (source line 112):
the normalized event that formatters consume.  The conversion `astimezone`
does not change the instant, so the stored value carries `e.created_at`. -/
def normalize_event (e : RawEvent) : JValue :=
  match e.body with
  | .obj fs => .obj (fs.set "created_at" (.dt e.created_at))
  | other => other

/-- `get_github_activity` (source lines 214-218): every yielded event is
rendered by `activity_formatter` and the lines are collected in order. -/
def get_github_activity (cfg : Config)
    (feeds : List (Nat → Except Unit (List RawEvent))) (fuel : Nat) :
    Option (List String) :=
  (traverse_opt (fun e => activity_formatter (normalize_event e))
      (get_events_date cfg feeds fuel)).map List.flatten

/-! ## Definitions taken from the claims, for comparison with the source

Two claims describe rules that differ from what the source computes; to state
the disagreement precisely, the rule exactly as each claim words it is also
defined, clearly separated from the source embeddings above. -/

mutual
/-- The traversal exactly as claim C2 words it: a `"login"` key records its
value and does not descend into it; an `"email"` key records its value and
additionally descends into it when it is a mapping; every other entry follows
the reference descent.  Defined only to be compared with `find_user_logins`. -/
def find_user_logins_claimed : JValue → List JValue × List JValue
  | .obj kvs => claimed_obj kvs
  | _ => ([], [])

def claimed_obj : JFields → List JValue × List JValue
  | .nil => ([], [])
  | .cons k v rest =>
      let pr : List JValue × List JValue :=
        if k = "login" then ([v], [])
        else if k = "email" then
          match v with
          | .obj kvs => ((claimed_obj kvs).1, v :: (claimed_obj kvs).2)
          | _ => ([], [v])
        else
          match v with
          | .obj kvs => claimed_obj kvs
          | .arr items => claimed_arr items
          | _ => ([], [])
      let tl := claimed_obj rest
      (pr.1 ++ tl.1, pr.2 ++ tl.2)

def claimed_arr : JItems → List JValue × List JValue
  | .nil => ([], [])
  | .cons item rest =>
      let h := find_user_logins_claimed item
      let t := claimed_arr rest
      (h.1 ++ t.1, h.2 ++ t.2)
end

/-- Removal of the conventional `"Event"` suffix (and only a suffix), as
claim C5 words it. -/
def strip_event_end (ty : String) : String :=
  if ("Event".data).isSuffixOf ty.data then ⟨ty.data.take (ty.data.length - 5)⟩
  else ty

/-- The type filter exactly as claim C5 words it: empty set, or lowercased
type listed, or lowercased suffix-stripped type listed.  Defined only to be
compared with `type_ok`. -/
def type_ok_claimed (flt : List String) (ty : String) : Bool :=
  flt.isEmpty || flt.contains (str_lower ty)
    || flt.contains (str_lower (strip_event_end ty))

/-! ## Concrete inputs used by counterexamples and witnesses -/

/-- An object whose `"email"` value is itself a mapping containing a login. -/
def exEmailNest : JValue :=
  .obj (.cons "email" (.obj (.cons "login" (.str "bob") .nil)) .nil)

/-- An object whose `"login"` value is itself a mapping containing an email. -/
def exLoginNest : JValue :=
  .obj (.cons "login" (.obj (.cons "email" (.str "b@y") .nil)) .nil)

/-- Identity `alice`, type filter `{"push"}`, window starting at instant 1000. -/
def cfgC1 : Config :=
  { current_user := "alice", emails := [], events_filter := ["push"],
    start_s := 1000 }

/-- A fork event attributed to `alice`, two window-lengths before the window. -/
def evOldFork : RawEvent :=
  { type := "ForkEvent", created_at := 5,
    body := .obj (.cons "login" (.str "alice") .nil) }

/-- A feed whose first page holds only `evOldFork` and whose later pages are
empty. -/
def feedC1 : Nat → Except Unit (List RawEvent) :=
  fun p => if p = 1 then .ok [evOldFork] else .ok []

/-- Identity `alice` with no type filter, window starting at instant 1000. -/
def cfgW1 : Config :=
  { current_user := "alice", emails := [], events_filter := [], start_s := 1000 }

/-- A push event attributed to `alice`, strictly before the window. -/
def evStopW1 : RawEvent :=
  { type := "PushEvent", created_at := 5,
    body := .obj (.cons "login" (.str "alice") .nil) }

/-- A feed whose first page holds only `evStopW1`. -/
def feedW1 : Nat → Except Unit (List RawEvent) :=
  fun p => if p = 1 then .ok [evStopW1] else .ok []

/-- Identity `alice` with no type filter, window `[0, 86399]`. -/
def cfgW3 : Config :=
  { current_user := "alice", emails := [], events_filter := [], start_s := 0 }

/-- An event at the last second of the day (`23:59:59` local). -/
def evEndW3 : RawEvent :=
  { type := "PushEvent", created_at := 86399,
    body := .obj (.cons "login" (.str "alice") .nil) }

/-- An event at local midnight (`00:00:00`) of the target day. -/
def evStartW3 : RawEvent :=
  { type := "PushEvent", created_at := 0,
    body := .obj (.cons "login" (.str "alice") .nil) }

/-- An event one second past the end of the day. -/
def evAfterW3 : RawEvent :=
  { type := "PushEvent", created_at := 86400,
    body := .obj (.cons "login" (.str "alice") .nil) }

/-- A feed whose first page holds the three events above. -/
def feedW3 : Nat → Except Unit (List RawEvent) :=
  fun p => if p = 1 then .ok [evAfterW3, evEndW3, evStartW3] else .ok []

/-- Identity `alice` with the registered email `a@x.com`. -/
def cfgW4 : Config :=
  { current_user := "alice", emails := ["a@x.com"], events_filter := [],
    start_s := 0 }

/-- An event whose only identity trace is a nested author email matching the
identity's email set; no login anywhere matches. -/
def evAcceptW4 : RawEvent :=
  { type := "PushEvent", created_at := 5,
    body := .obj (.cons "author"
      (.obj (.cons "email" (.str "a@x.com") .nil)) .nil) }

/-- An event with no matching login and no matching email. -/
def evRejectW4 : RawEvent :=
  { type := "PushEvent", created_at := 5,
    body := .obj (.cons "author"
      (.obj (.cons "email" (.str "b@y.com") .nil)) .nil) }

/-- Identity `alice` with no type filter, window starting at instant 1000. -/
def cfgW6 : Config :=
  { current_user := "alice", emails := [], events_filter := [], start_s := 1000 }

/-- A pre-window event that triggers the stop signal. -/
def evOldW6 : RawEvent :=
  { type := "PushEvent", created_at := 500,
    body := .obj (.cons "login" (.str "alice") .nil) }

/-- An in-window event placed after the stop event on the same page. -/
def evGoodW6 : RawEvent :=
  { type := "PushEvent", created_at := 1500,
    body := .obj (.cons "login" (.str "alice") .nil) }

/-- Identity `alice`, no filters, window `[0, 86399]`. -/
def cfgW7 : Config :=
  { current_user := "alice", emails := [], events_filter := [], start_s := 0 }

/-- An in-window event served by the first healthy feed. -/
def evAW7 : RawEvent :=
  { type := "PushEvent", created_at := 10,
    body := .obj (.cons "login" (.str "alice") .nil) }

/-- An in-window event served by the second healthy feed. -/
def evBW7 : RawEvent :=
  { type := "PushEvent", created_at := 20,
    body := .obj (.cons "login" (.str "alice") .nil) }

/-- A healthy feed serving `evAW7` on every page. -/
def feedAW7 : Nat → Except Unit (List RawEvent) := fun _ => .ok [evAW7]

/-- A healthy feed serving `evBW7` on every page. -/
def feedBW7 : Nat → Except Unit (List RawEvent) := fun _ => .ok [evBW7]

/-- A feed whose every fetch fails with a transport error. -/
def feedFailW7 : Nat → Except Unit (List RawEvent) := fun _ => .error ()

/-- A feed returning an empty page on every request. -/
def feedEmptyW10 : Nat → Except Unit (List RawEvent) :=
  fun _ => .ok ([] : List RawEvent)

/-- Identity `alice`, no filters, window `[0, 86399]`. -/
def cfgW10 : Config :=
  { current_user := "alice", emails := [], events_filter := [], start_s := 0 }

/-- The normalized push event of the specification's round-trip example:
payload commits `[{"message": "fix bug"}, {"message": "a\nb"}]`. -/
def evPushW8 : JValue :=
  .obj (.cons "type" (.str "PushEvent")
    (.cons "created_at" (.str "2024-05-01 09:00:00+02:00")
      (.cons "actor" (.obj (.cons "login" (.str "alice") .nil))
        (.cons "repo" (.obj (.cons "name" (.str "nbr23/github-log") .nil))
          (.cons "payload" (.obj (.cons "commits"
            (.arr (.cons (.obj (.cons "message" (.str "fix bug") .nil))
              (.cons (.obj (.cons "message" (.str "a\nb") .nil)) .nil)))
            .nil)) .nil)))))

/-- The payload object of `evPushW8`. -/
def payloadW8 : JValue :=
  .obj (.cons "commits"
    (.arr (.cons (.obj (.cons "message" (.str "fix bug") .nil))
      (.cons (.obj (.cons "message" (.str "a\nb") .nil)) .nil))) .nil)

/-- The commits array of `evPushW8`. -/
def itemsW8 : JItems :=
  .cons (.obj (.cons "message" (.str "fix bug") .nil))
    (.cons (.obj (.cons "message" (.str "a\nb") .nil)) .nil)

/-- A normalized create event with `ref_type: "repository"` (no `ref` key). -/
def evRepoW9 : JValue :=
  .obj (.cons "type" (.str "CreateEvent")
    (.cons "created_at" (.str "2024-05-01 09:00:00+02:00")
      (.cons "actor" (.obj (.cons "login" (.str "alice") .nil))
        (.cons "repo" (.obj (.cons "name" (.str "alice/newrepo") .nil))
          (.cons "payload" (.obj (.cons "ref_type" (.str "repository") .nil))
            .nil)))))

/-- The payload object of `evRepoW9`. -/
def payloadRepoW9 : JValue := .obj (.cons "ref_type" (.str "repository") .nil)

/-- A normalized create event with `ref_type: "branch"` and
`ref: "refs/heads/main"`. -/
def evBranchW9 : JValue :=
  .obj (.cons "type" (.str "CreateEvent")
    (.cons "created_at" (.str "2024-05-01 09:00:00+02:00")
      (.cons "actor" (.obj (.cons "login" (.str "alice") .nil))
        (.cons "repo" (.obj (.cons "name" (.str "alice/r") .nil))
          (.cons "payload" (.obj (.cons "ref_type" (.str "branch")
            (.cons "ref" (.str "refs/heads/main") .nil))) .nil)))))

/-- The payload object of `evBranchW9`. -/
def payloadBranchW9 : JValue :=
  .obj (.cons "ref_type" (.str "branch")
    (.cons "ref" (.str "refs/heads/main") .nil))

/-! ## Lemmas about one page of the loop -/

/-- Characterization of the page loop on an arbitrary starting state: the
yielded events are those passing both filters and lying inside the window, in
page order, and `fetch_more` survives the page exactly when no event passing
both filters lies strictly before the window start. -/
theorem foldl_process_event (cfg : Config) (evs : List RawEvent) :
    ∀ acc b, evs.foldl (process_event cfg) (acc, b) =
      (acc ++ evs.filter (fun e => passes cfg e && in_window cfg e),
        b && evs.all (fun e => !(passes cfg e && before_window cfg e))) := by
  induction evs with
  | nil => simp
  | cons e rest ih =>
    intro acc b
    simp only [List.foldl_cons, List.filter_cons, List.all_cons]
    cases hp : passes cfg e with
    | false => simp [process_event, hp, ih]
    | true =>
      cases hb : before_window cfg e with
      | false =>
        cases hw : in_window cfg e with
        | false => simp [process_event, hp, hb, hw, ih]
        | true => simp [process_event, hp, hb, hw, ih]
      | true =>
        have hw : in_window cfg e = false := by
          simp only [before_window, decide_eq_true_eq] at hb
          simp only [in_window, day_end_s, Bool.and_eq_false_iff,
            decide_eq_false_iff_not, not_le]
          left
          omega
        simp [process_event, hp, hb, hw, ih]

/-- The events yielded from one page are exactly the fetched events of the
page passing both filters and lying in the window. -/
theorem process_page_fst (cfg : Config) (evs : List RawEvent) :
    (process_page cfg evs).1 =
      evs.filter (fun e => passes cfg e && in_window cfg e) := by
  simp [process_page, foldl_process_event]

/-- The `fetch_more` flag after one page. -/
theorem process_page_snd (cfg : Config) (evs : List RawEvent) :
    (process_page cfg evs).2 =
      evs.all (fun e => !(passes cfg e && before_window cfg e)) := by
  simp [process_page, foldl_process_event]

/-- `fetch_more` survives a page iff every fetched event of the page that
passes both filters is at or after the window start. -/
theorem process_page_snd_iff (cfg : Config) (evs : List RawEvent) :
    (process_page cfg evs).2 = true ↔
      ∀ e ∈ evs, passes cfg e = true → cfg.start_s ≤ e.created_at := by
  rw [process_page_snd, List.all_eq_true]
  constructor
  · intro h e he hp
    have := h e he
    simp only [hp, Bool.true_and, Bool.not_eq_true', before_window,
      decide_eq_false_iff_not, not_lt] at this
    exact this
  · intro h e he
    by_cases hp : passes cfg e = true
    · have := h e he hp
      simp only [hp, Bool.true_and, Bool.not_eq_true', before_window,
        decide_eq_false_iff_not, not_lt]
      exact this
    · simp only [Bool.not_eq_true] at hp
      simp [hp]

/-! ## Lemmas about the pagination driver -/

/-- Every requested page number is at least the starting page. -/
theorem run_from_pages_lb (cfg : Config) (f : Nat → Except Unit (List RawEvent)) :
    ∀ fuel page q, q ∈ (run_from cfg f fuel page).2.1 → page ≤ q := by
  intro fuel
  induction fuel with
  | zero => intro page q hq; simp [run_from] at hq
  | succ n ih =>
    intro page q hq
    rcases hf : f page with u | evs
    · simp [run_from, hf] at hq
      omega
    · simp only [run_from, hf] at hq
      by_cases hm : (process_page cfg evs).2 = true
      · simp only [hm, if_true, List.mem_cons] at hq
        rcases hq with rfl | hq
        · exact Nat.le_refl _
        · exact Nat.le_of_succ_le (ih (page + 1) q hq)
      · simp only [Bool.not_eq_true] at hm
        simp [hm] at hq
        omega

/-- The events yielded by a feed are exactly the events fetched from that
feed that pass both filters and lie inside the window, in fetch order. -/
theorem run_from_emitted (cfg : Config) (f : Nat → Except Unit (List RawEvent)) :
    ∀ fuel page, (run_from cfg f fuel page).1 =
      ((run_from cfg f fuel page).2.2).filter
        (fun e => passes cfg e && in_window cfg e) := by
  intro fuel
  induction fuel with
  | zero => intro page; simp [run_from]
  | succ n ih =>
    intro page
    rcases hf : f page with u | evs
    · simp [run_from, hf]
    · simp only [run_from, hf]
      by_cases hm : (process_page cfg evs).2 = true
      · simp [hm, List.filter_append, process_page_fst, ih]
      · simp only [Bool.not_eq_true] at hm
        simp [hm, process_page_fst]

/-- Once a requested page turns out to contain a stop event (its processed
`fetch_more` flag is `false`), that page is the last one ever requested. -/
theorem run_from_stop_max (cfg : Config) (f : Nat → Except Unit (List RawEvent)) :
    ∀ fuel page p q evs, f p = .ok evs → (process_page cfg evs).2 = false →
      p ∈ (run_from cfg f fuel page).2.1 →
      q ∈ (run_from cfg f fuel page).2.1 → q ≤ p := by
  intro fuel
  induction fuel with
  | zero => intro page p q evs _ _ hp _; simp [run_from] at hp
  | succ n ih =>
    intro page p q evs hok hstop hp hq
    rcases hf : f page with u | evs'
    · simp [run_from, hf] at hp hq
      omega
    · simp only [run_from, hf] at hp hq
      by_cases hm : (process_page cfg evs').2 = true
      · simp only [hm, if_true, List.mem_cons] at hp hq
        rcases hp with rfl | hp
        · rw [hok] at hf
          cases hf
          rw [hstop] at hm
          cases hm
        · rcases hq with hq1 | hq
          · have := run_from_pages_lb cfg f n (page + 1) p hp
            omega
          · exact ih (page + 1) p q evs hok hstop hp hq
      · simp only [Bool.not_eq_true] at hm
        simp [hm] at hp hq
        omega

/-- A run that sees `n` successful pages without a stop event and then a
transport error: the pages requested are exactly those `n + 1` pages, the
fetched events are the `n` good pages in order, and the yielded events are
the per-page yields of the good pages — the error terminates only this
feed's pagination and loses nothing already yielded. -/
theorem run_from_until_error (cfg : Config)
    (f : Nat → Except Unit (List RawEvent)) (pagesF : Nat → List RawEvent) :
    ∀ n page fuel,
      (∀ i, i < n → f (page + i) = .ok (pagesF (page + i)) ∧
        (process_page cfg (pagesF (page + i))).2 = true) →
      f (page + n) = .error () →
      n + 1 ≤ fuel →
      run_from cfg f fuel page =
        ((List.range' page n).flatMap (fun q => (process_page cfg (pagesF q)).1),
          List.range' page (n + 1),
          (List.range' page n).flatMap pagesF) := by
  intro n
  induction n with
  | zero =>
    intro page fuel _ herr hfuel
    obtain ⟨fuel', rfl⟩ : ∃ fuel', fuel = fuel' + 1 :=
      ⟨fuel - 1, by omega⟩
    simp only [Nat.add_zero] at herr
    simp [run_from, herr, List.range'_succ]
  | succ n ih =>
    intro page fuel hok herr hfuel
    obtain ⟨fuel', rfl⟩ : ∃ fuel', fuel = fuel' + 1 :=
      ⟨fuel - 1, by omega⟩
    have h0 := hok 0 (Nat.succ_pos n)
    simp only [Nat.add_zero] at h0
    have hrec := ih (page + 1) fuel'
      (fun i hi => by
        have := hok (i + 1) (by omega)
        have harith : page + (i + 1) = page + 1 + i := by omega
        rw [harith] at this
        exact this)
      (by
        have harith : page + 1 + n = page + (n + 1) := by omega
        rw [harith]
        exact herr)
      (by omega)
    simp only [run_from, h0.1, h0.2, if_true, hrec]
    simp [List.range'_succ, List.flatMap_cons]

/-- With fuel remaining, the starting page itself is always requested. -/
theorem run_from_head_mem (cfg : Config) (f : Nat → Except Unit (List RawEvent))
    (fuel page : Nat) : page ∈ (run_from cfg f (fuel + 1) page).2.1 := by
  rcases hf : f page with u | evs
  · simp [run_from, hf]
  · by_cases hm : (process_page cfg evs).2 = true
    · simp [run_from, hf, hm]
    · simp only [Bool.not_eq_true] at hm
      simp [run_from, hf, hm]

/-- The loop requests the page after `page` exactly when the fetch of `page`
succeeds and no fetched event of that page both passes the two filters and
lies strictly before the window start; in particular an empty page, or a page
whose events all fail the filters or lie at or after the window start, always
leads to a request for the next page. -/
theorem run_from_next_page (cfg : Config) (f : Nat → Except Unit (List RawEvent))
    (n page : Nat) :
    (page + 1) ∈ (run_from cfg f (n + 2) page).2.1 ↔
      ∃ evs, f page = .ok evs ∧ (process_page cfg evs).2 = true := by
  rcases hf : f page with u | evs
  · simp [run_from, hf]
  · by_cases hm : (process_page cfg evs).2 = true
    · simp only [run_from, hf, hm, if_true]
      constructor
      · intro _
        exact ⟨evs, rfl, hm⟩
      · intro _
        exact List.mem_cons_of_mem _ (run_from_head_mem cfg f n (page + 1))
    · simp only [Bool.not_eq_true] at hm
      simp only [run_from, hf, hm]
      constructor
      · intro h
        simp at h
      · rintro ⟨evs', hevs', hm'⟩
        cases hevs'
        rw [hm] at hm'
        cases hm'

/-! ## Helper lemmas for the formatter claims -/

/-- A successful all-or-nothing traversal preserves the length. -/
theorem traverse_opt_length (f : α → Option β) :
    ∀ (l : List α) (l' : List β), traverse_opt f l = some l' →
      l'.length = l.length := by
  intro l
  induction l with
  | nil =>
    intro l' h
    simp only [traverse_opt] at h
    cases h
    rfl
  | cons x xs ih =>
    intro l' h
    simp only [traverse_opt] at h
    cases hx : f x with
    | none => rw [hx] at h; cases h
    | some y =>
      cases ht : traverse_opt f xs with
      | none => rw [hx, ht] at h; cases h
      | some ys =>
        rw [hx, ht] at h
        cases h
        simp [ih ys ht]

/-- If every commit of the list carries the string messages `msgs` in order,
the per-commit lines are exactly the prefixed, newline-to-comma messages. -/
theorem traverse_commit_lines (pre : String) :
    ∀ (cs : List JValue) (msgs : List String),
      traverse_opt (fun c => c.get "message") cs = some (msgs.map JValue.str) →
      traverse_opt (fun c => commit_line pre c) cs =
        some (msgs.map fun m => pre ++ " - " ++ str_replace m "\n" ",") := by
  intro cs
  induction cs with
  | nil =>
    intro msgs h
    simp only [traverse_opt] at h
    cases h' : msgs with
    | nil => simp [traverse_opt]
    | cons m ms => rw [h'] at h; simp at h
  | cons c rest ih =>
    intro msgs h
    simp only [traverse_opt] at h
    cases hm : c.get "message" with
    | none => rw [hm] at h; cases h
    | some v =>
      cases ht : traverse_opt (fun c => c.get "message") rest with
      | none => rw [hm, ht] at h; cases h
      | some vs =>
        rw [hm, ht] at h
        cases msgs with
        | nil => simp at h
        | cons m ms =>
          simp only [List.map_cons, Option.some.injEq, List.cons.injEq] at h
          obtain ⟨hv, hvs⟩ := h
          subst hv
          have hrest := ih ms (by rw [ht, hvs])
          simp only [traverse_opt, List.map_cons]
          rw [hrest]
          simp [commit_line, hm]

/-- When the event has the payload `p` and `p` has a string `ref`, the branch
extracted by get_prefix is the last piece of that ref split on slashes. -/
theorem ref_branch_of_ref (e p : JValue) (s : String)
    (hp : e.get "payload" = some p) (hs : p.get "ref" = some (.str s)) :
    ref_branch e = some ((str_split s "/").getLastD "") := by
  cases e with
  | obj fs =>
    simp only [JValue.get] at hp
    cases p with
    | obj pfs =>
      simp only [JValue.get] at hs
      simp [ref_branch, hp, hs]
    | str s' => simp [JValue.get] at hs
    | dt i => simp [JValue.get] at hs
    | null => simp [JValue.get] at hs
    | arr its => simp [JValue.get] at hs
  | str s' => simp [JValue.get] at hp
  | dt i => simp [JValue.get] at hp
  | null => simp [JValue.get] at hp
  | arr its => simp [JValue.get] at hp

/-- Paging over a feed that always returns an empty page requests every page
the fuel allows: the loop never terminates of its own accord. -/
theorem run_from_empty_pages (cfg : Config) :
    ∀ fuel page,
      (run_from cfg (fun _ => .ok ([] : List RawEvent)) fuel page).2.1 =
        List.range' page fuel := by
  intro fuel
  induction fuel with
  | zero => intro page; simp [run_from]
  | succ n ih => intro page; simp [run_from, process_page, ih, List.range'_succ]

/-! ## Claim C2 -/

/-- Claim C2, counterexample.  The claim states that an `"email"` key's value
is recorded and additionally descended into when it is a mapping, while a
`"login"` key's value is recorded without descent.  The source does the
opposite: on `{"email": {"login": "bob"}}` it records the mapping as an email
and never finds the nested login (the claimed traversal finds `"bob"`), and
on `{"login": {"email": "b@y"}}` it records the mapping as a login and also
finds the nested email (the claimed traversal does not). -/
theorem claim_C2_counterexample :
    find_user_logins exEmailNest =
      ([], [.obj (.cons "login" (.str "bob") .nil)])
    ∧ find_user_logins_claimed exEmailNest =
      ([.str "bob"], [.obj (.cons "login" (.str "bob") .nil)])
    ∧ find_user_logins exLoginNest =
      ([.obj (.cons "email" (.str "b@y") .nil)], [.str "b@y"])
    ∧ find_user_logins_claimed exLoginNest =
      ([.obj (.cons "email" (.str "b@y") .nil)], []) := by
  refine ⟨?_, ?_, ?_, ?_⟩ <;> decide

/-- Claim C2, amended: in the recursive traversal, for every mapping node,
a key equal to `"email"` has its value recorded as an email and traversal
does not descend into that value, while a key equal to `"login"` has its
value recorded as a login and traversal additionally descends into the value
when it is a mapping or a sequence — login capture does not short-circuit
descent, email capture does. -/
theorem claim_C2_amended (v : JValue) (rest : JFields) :
    find_user_logins (.obj (.cons "email" v rest)) =
      ((find_obj rest).1, v :: (find_obj rest).2)
    ∧ find_user_logins (.obj (.cons "login" v rest)) =
      (v :: ((descend_value v).1 ++ (find_obj rest).1),
        (descend_value v).2 ++ (find_obj rest).2) := by
  constructor
  · have h1 : find_user_logins (.obj (.cons "email" v rest)) =
        find_obj (.cons "email" v rest) := by
      simp [find_user_logins]
    rw [h1, find_obj.eq_def]
    simp
  · have h2 : find_user_logins (.obj (.cons "login" v rest)) =
        find_obj (.cons "login" v rest) := by
      simp [find_user_logins]
    rw [h2, find_obj.eq_def]
    cases v <;> simp [descend_value]

/-! ## Claim C5 -/

/-- Claim C5, counterexample.  The source removes every occurrence of the
exact substring `"Event"` (`str.replace`), not just a conventional suffix:
with the configured filter `"push"`, the type `"EventPush"` — which does not
end in `"Event"` — is accepted by the code (`"EventPush" → "Push" → "push"`),
while the claimed suffix-removal rule rejects it. -/
theorem claim_C5_counterexample :
    type_ok (parse_events_filter "push") "EventPush" = true
    ∧ type_ok_claimed (parse_events_filter "push") "EventPush" = false := by
  refine ⟨?_, ?_⟩ <;> decide

/-- Claim C5, amended: the filter accepts the event iff the configured set is
empty, or the lowercased type is listed, or the type with every occurrence of
the exact substring `"Event"` removed and then lowercased is listed; with the
set `{"push"}` a `"PushEvent"` is accepted and a `"ForkEvent"` rejected. -/
theorem claim_C5_amended (s ty : String) :
    (type_ok (parse_events_filter s) ty = true ↔
      (parse_events_filter s = []
        ∨ str_lower ty ∈ parse_events_filter s
        ∨ str_lower (str_replace ty "Event" "") ∈ parse_events_filter s))
    ∧ type_ok (parse_events_filter "push") "PushEvent" = true
    ∧ type_ok (parse_events_filter "push") "ForkEvent" = false := by
  refine ⟨?_, by decide, by decide⟩
  simp [type_ok, List.isEmpty_iff, or_assoc]

/-! ## Claim C1 -/

/-- Claim C1, counterexample.  The claim asserts the stop holds for all
pre-window events "whatever their type or attribution"; in the source the
type and attribution filters `continue` before the timestamp is ever
examined, so a pre-window event that fails the type filter does not stop
pagination.  Concretely: with filter `{"push"}`, page 1 contains only
`evOldFork` (a `ForkEvent` at instant 5, far before the window start 1000),
yet pages 2 and 3 are still requested. -/
theorem claim_C1_counterexample :
    feedC1 1 = .ok [evOldFork]
    ∧ evOldFork.created_at < cfgC1.start_s
    ∧ (run_feed cfgC1 feedC1 3).2.1 = [1, 2, 3] := by
  refine ⟨rfl, by decide, by decide⟩

/-- Claim C1, amended: for every feed, once any event that passes the type
and attribution filters and whose converted time is strictly before the local
day-window start appears on a fetched page, no page beyond that one is ever
requested from the feed — the stop is idempotent: every page the feed's loop
requests is at most the page carrying such an event. -/
theorem claim_C1_amended (cfg : Config)
    (f : Nat → Except Unit (List RawEvent)) (fuel p q : Nat)
    (evs : List RawEvent)
    (hok : f p = .ok evs)
    (hmem : p ∈ (run_feed cfg f fuel).2.1)
    (hstop : ∃ e ∈ evs, passes cfg e = true ∧ e.created_at < cfg.start_s)
    (hq : q ∈ (run_feed cfg f fuel).2.1) : q ≤ p := by
  have hflag : (process_page cfg evs).2 = false := by
    cases hpp : (process_page cfg evs).2 with
    | false => rfl
    | true =>
      rcases hstop with ⟨e, he, hpass, hlt⟩
      have := (process_page_snd_iff cfg evs).mp hpp e he hpass
      omega
  simp only [run_feed] at hmem hq
  exact run_from_stop_max cfg f fuel 1 p q evs hok hflag hmem hq

/-- Witness for the amended claim C1: with no type filter, the attributed
pre-window push event `evStopW1` on page 1 stops the pagination, and indeed
only page 1 is ever requested. -/
theorem claim_C1_amended_witness :
    (1 : Nat) ≤ 1 ∧ (run_feed cfgW1 feedW1 5).2.1 = [1] := by
  refine ⟨?_, by decide⟩
  exact claim_C1_amended cfgW1 feedW1 5 1 1 [evStopW1] rfl (by decide)
    ⟨evStopW1, by decide, by decide, by decide⟩ (by decide)

/-! ## Claim C10 -/

/-- Claim C10: the loop requests the page after `page` iff the fetch of
`page` succeeded and no fetched event of that page passes both filters with a
converted time strictly before the window start — so pagination ends only on
a transport error or on such an event; and over a feed of empty pages the
loop requests every page its fuel allows, never terminating of its own
accord. -/
theorem claim_C10 (cfg : Config) (f : Nat → Except Unit (List RawEvent))
    (n page : Nat) :
    ((page + 1) ∈ (run_from cfg f (n + 2) page).2.1 ↔
      ∃ evs, f page = .ok evs ∧
        ∀ e ∈ evs, passes cfg e = true → cfg.start_s ≤ e.created_at)
    ∧ (run_from cfg (fun _ => .ok ([] : List RawEvent)) (n + 2) page).2.1 =
        List.range' page (n + 2) := by
  constructor
  · rw [run_from_next_page]
    constructor
    · rintro ⟨evs, hf, hm⟩
      exact ⟨evs, hf, (process_page_snd_iff cfg evs).mp hm⟩
    · rintro ⟨evs, hf, h⟩
      exact ⟨evs, hf, (process_page_snd_iff cfg evs).mpr h⟩
  · exact run_from_empty_pages cfg (n + 2) page

/-- Witness for claim C10 at a concrete feed of empty pages: page 2 is
requested after the empty page 1, and three fuel units request exactly pages
1, 2, 3. -/
theorem claim_C10_witness :
    (2 : Nat) ∈ (run_from cfgW10 feedEmptyW10 3 1).2.1
    ∧ (run_from cfgW10 feedEmptyW10 3 1).2.1 = [1, 2, 3] := by
  have h := claim_C10 cfgW10 feedEmptyW10 1 1
  refine ⟨h.1.mpr ⟨[], rfl, ?_⟩, by decide⟩
  intro e he
  cases he

/-! ## Claim C3 -/

/-- Claim C3: over a whole feed run, the yielded events are exactly the
fetched events that pass the type and attribution filters and whose converted
time lies in the inclusive window `[start, start + 86399]` — each in-window
occurrence is yielded exactly once (the count of every filtered event in the
output equals its count among the fetched events when it is in-window, and is
zero otherwise; the boundary instants `start` and `start + 86399`, i.e. local
00:00:00 and 23:59:59, are inside).  Every emitted line of the full program
output comes from applying `activity_formatter` — the type-keyed renderer
dispatch — to the normalized yielded events in order. -/
theorem claim_C3 (cfg : Config) (f : Nat → Except Unit (List RawEvent))
    (fuel : Nat) :
    ((run_feed cfg f fuel).1 =
      ((run_feed cfg f fuel).2.2).filter
        (fun e => passes cfg e && in_window cfg e))
    ∧ (∀ e : RawEvent, in_window cfg e = true ↔
        (cfg.start_s ≤ e.created_at ∧ e.created_at ≤ cfg.start_s + 86399))
    ∧ (∀ e : RawEvent, passes cfg e = true →
        ((run_feed cfg f fuel).1.count e =
          if in_window cfg e then ((run_feed cfg f fuel).2.2).count e else 0))
    ∧ (∀ feeds lines, get_github_activity cfg feeds fuel = some lines →
        ∃ rendered,
          traverse_opt (fun e => activity_formatter (normalize_event e))
              (get_events_date cfg feeds fuel) = some rendered
          ∧ lines = rendered.flatten) := by
  refine ⟨run_from_emitted cfg f fuel 1, ?_, ?_, ?_⟩
  · intro e
    simp [in_window, day_end_s]
  · intro e hpass
    simp only [run_feed]
    rw [run_from_emitted cfg f fuel 1]
    by_cases hw : in_window cfg e = true
    · rw [if_pos hw]
      exact List.count_filter (by simp [hpass, hw])
    · rw [if_neg (by simpa using hw)]
      refine List.count_eq_zero.mpr ?_
      intro hmem
      rw [List.mem_filter] at hmem
      have := hmem.2
      rw [hpass] at this
      simp at this
      exact hw this
  · intro feeds lines h
    simp only [get_github_activity, Option.map_eq_some'] at h
    rcases h with ⟨rendered, hr, hl⟩
    exact ⟨rendered, hr, hl.symm⟩

/-- Witness for claim C3 at a concrete feed: the boundary events at local
00:00:00 (instant 0) and 23:59:59 (instant 86399) are each emitted exactly
once, the event at 86400 (next day's midnight) is never emitted. -/
theorem claim_C3_witness :
    (run_feed cfgW3 feedW3 3).1.count evEndW3 = 1
    ∧ (run_feed cfgW3 feedW3 3).1.count evStartW3 = 1
    ∧ (run_feed cfgW3 feedW3 3).1.count evAfterW3 = 0 := by
  have h := claim_C3 cfgW3 feedW3 3
  refine ⟨?_, ?_, ?_⟩
  · exact (h.2.2.1 evEndW3 (by decide)).trans (by decide)
  · exact (h.2.2.1 evStartW3 (by decide)).trans (by decide)
  · exact (h.2.2.1 evAfterW3 (by decide)).trans (by decide)

/-! ## Claim C4 -/

/-- Claim C4: the attribution check accepts an event iff the resolved login
occurs anywhere among the logins collected by the recursive traversal of the
event, or some identity email occurs among the collected emails; and a
rejected event is discarded before the window check — removing it from a page
changes neither the events yielded from the page nor the page's `fetch_more`
flag. -/
theorem claim_C4 (cfg : Config) (e : RawEvent) :
    (attribution_ok cfg e = true ↔
      ((JValue.str cfg.current_user) ∈ (find_user_logins e.body).1
        ∨ ∃ m ∈ cfg.emails, (JValue.str m) ∈ (find_user_logins e.body).2))
    ∧ (attribution_ok cfg e = false → ∀ pre post,
        process_page cfg (pre ++ e :: post) = process_page cfg (pre ++ post)) := by
  constructor
  · simp [attribution_ok]
  · intro hfail pre post
    have hpass : passes cfg e = false := by
      simp [passes, hfail]
    simp only [process_page]
    rw [List.foldl_append, List.foldl_append, List.foldl_cons]
    congr 1
    simp [process_event, hpass]

/-- Witness for claim C4: the event carrying only `{"author": {"email":
"a@x.com"}}` is accepted for the identity with email set `{"a@x.com"}`
although no login matches, and the event with a non-matching email is
discarded without affecting the page. -/
theorem claim_C4_witness :
    attribution_ok cfgW4 evAcceptW4 = true
    ∧ process_page cfgW4 ([] ++ evRejectW4 :: []) = process_page cfgW4 ([] ++ []) := by
  constructor
  · exact (claim_C4 cfgW4 evAcceptW4).1.mpr
      (Or.inr ⟨"a@x.com", by decide, by decide⟩)
  · exact (claim_C4 cfgW4 evRejectW4).2 (by decide) [] []

/-! ## Claim C6 -/

/-- Claim C6: when an event passing both filters and lying strictly before
the window start occurs in the middle of a page, the whole page is still
processed under the unchanged rules — the yielded events of the page are
exactly its filtered in-window events, including those after the stop event —
and the page's `fetch_more` flag ends up cleared. -/
theorem claim_C6 (cfg : Config) (pre post : List RawEvent) (old : RawEvent)
    (hpass : passes cfg old = true) (hlt : old.created_at < cfg.start_s) :
    (process_page cfg (pre ++ old :: post)).1 =
      (pre ++ old :: post).filter (fun e => passes cfg e && in_window cfg e)
    ∧ (process_page cfg (pre ++ old :: post)).2 = false := by
  refine ⟨process_page_fst _ _, ?_⟩
  rw [process_page_snd]
  cases hall : (pre ++ old :: post).all
      (fun e => !(passes cfg e && before_window cfg e)) with
  | false => rfl
  | true =>
    exfalso
    have := (List.all_eq_true).mp hall old (by simp)
    rw [hpass] at this
    simp [before_window] at this
    omega

/-- Witness for claim C6: on the concrete page `[evOldW6, evGoodW6]` the
pre-window `evOldW6` clears the flag, yet the later in-window `evGoodW6` is
still yielded. -/
theorem claim_C6_witness :
    (process_page cfgW6 ([] ++ evOldW6 :: [evGoodW6])).1 = [evGoodW6]
    ∧ (process_page cfgW6 ([] ++ evOldW6 :: [evGoodW6])).2 = false := by
  have h := claim_C6 cfgW6 [] [evGoodW6] evOldW6 (by decide) (by decide)
  exact ⟨h.1.trans (by decide), h.2⟩

/-! ## Claim C7 -/

/-- Claim C7: when one feed's fetch fails with a transport error at page
`n + 1` after `n` healthy pages, only that feed's pagination terminates: the
failing feed still contributes everything it yielded from its `n` healthy
pages, and every other configured feed — before or after it in the feed list
— contributes exactly what it would contribute anyway; the run as a whole is
not aborted. -/
theorem claim_C7 (cfg : Config) (fuel n : Nat)
    (pre post : List (Nat → Except Unit (List RawEvent)))
    (f : Nat → Except Unit (List RawEvent)) (pagesF : Nat → List RawEvent)
    (hok : ∀ i, i < n → f (1 + i) = .ok (pagesF (1 + i)) ∧
      (process_page cfg (pagesF (1 + i))).2 = true)
    (herr : f (1 + n) = .error ())
    (hfuel : n + 1 ≤ fuel) :
    get_events_date cfg (pre ++ f :: post) fuel =
      get_events_date cfg pre fuel
        ++ (List.range' 1 n).flatMap (fun q => (process_page cfg (pagesF q)).1)
        ++ get_events_date cfg post fuel := by
  have hrun := run_from_until_error cfg f pagesF n 1 fuel hok herr hfuel
  simp only [get_events_date, List.map_append, List.map_cons,
    List.flatten_append, List.flatten_cons, run_feed, hrun, List.append_assoc]

/-- Witness for claim C7: with the failing feed between two healthy feeds
and one fuel unit each, the run still yields the healthy feeds' events; the
failing feed (error on its first page) contributes nothing but aborts
nothing. -/
theorem claim_C7_witness :
    get_events_date cfgW7 ([feedAW7] ++ feedFailW7 :: [feedBW7]) 1 =
      get_events_date cfgW7 [feedAW7] 1
        ++ (List.range' 1 0).flatMap
            (fun q => (process_page cfgW7 ((fun _ => []) q)).1)
        ++ get_events_date cfgW7 [feedBW7] 1
    ∧ get_events_date cfgW7 ([feedAW7] ++ feedFailW7 :: [feedBW7]) 1 =
        [evAW7, evBW7] := by
  constructor
  · exact claim_C7 cfgW7 1 0 [feedAW7] [feedBW7] feedFailW7 (fun _ => [])
      (fun i hi => absurd hi (Nat.not_lt_zero i)) rfl (Nat.le_refl 1)
  · decide

/-! ## Claim C8 -/

/-- Claim C8: for a push event whose payload carries the commits array
`items` with string messages `msgs` (in order), the formatter produces
exactly one line per commit — the shared prefix, then `" - "`, then the
commit's message with every newline replaced by a comma — so the number of
lines equals the number of commits. -/
theorem claim_C8 (e p : JValue) (items : JItems) (pre : String)
    (msgs : List String)
    (hp : e.get "payload" = some p)
    (hc : p.get "commits" = some (.arr items))
    (hpre : get_prefix e = some pre)
    (hmsgs : traverse_opt (fun c => c.get "message") items.toList =
      some (msgs.map JValue.str)) :
    push_formatter e =
      some (msgs.map fun m => pre ++ " - " ++ str_replace m "\n" ",")
    ∧ msgs.length = items.toList.length := by
  constructor
  · simp only [push_formatter, hp, hc, hpre, Option.some_bind]
    exact traverse_commit_lines pre items.toList msgs hmsgs
  · have hlen := traverse_opt_length _ _ _ hmsgs
    rw [← hlen, List.length_map]

/-- Witness for claim C8, the specification's round-trip example: payload
commits `[{"message": "fix bug"}, {"message": "a\nb"}]` produce exactly two
lines, the second with the embedded newline replaced by a comma. -/
theorem claim_C8_witness :
    push_formatter evPushW8 =
      some ["2024-05-01 09:00:00+02:00 alice/Push\tnbr23/github-log - fix bug",
        "2024-05-01 09:00:00+02:00 alice/Push\tnbr23/github-log - a,b"] := by
  have h := claim_C8 evPushW8 payloadW8 itemsW8
    "2024-05-01 09:00:00+02:00 alice/Push\tnbr23/github-log"
    ["fix bug", "a\nb"] (by decide) (by decide) (by decide) (by decide)
  exact h.1.trans (by decide)

/-! ## Claim C9 -/

/-- Claim C9: for a create or delete event, `ref_type = "repository"` makes
the rendered line show the repository name, any other string ref-type makes
it show the ref-type and the ref; and the prefix's branch component is the
last `/`-separated piece of `payload.ref` whenever that field is a present,
non-empty-splitting string — with the `:branch` form used exactly when that
piece is non-empty. -/
theorem claim_C9 (e p : JValue) (hp : e.get "payload" = some p) :
    (∀ pre rn, get_prefix e = some pre →
      p.get "ref_type" = some (.str "repository") → repo_name e = some rn →
      create_formatter e = some [pre ++ " - " ++ "repository" ++ " " ++ rn])
    ∧ (∀ pre rt s, get_prefix e = some pre →
      p.get "ref_type" = some (.str rt) → rt ≠ "repository" →
      p.get "ref" = some (.str s) →
      create_formatter e = some [pre ++ " - " ++ rt ++ " " ++ s])
    ∧ (∀ s, p.get "ref" = some (.str s) →
      ref_branch e = some ((str_split s "/").getLastD ""))
    ∧ (∀ s ca al pt rn, p.get "ref" = some (.str s) →
      (str_split s "/").getLastD "" ≠ "" →
      created_at_display e = some ca → actor_login e = some al →
      get_pretty_event_type e = some pt → repo_name e = some rn →
      get_prefix e = some (ca ++ " " ++ al ++ "/" ++ pt ++ "\t" ++ rn ++ ":" ++
        (str_split s "/").getLastD "")) := by
  refine ⟨?_, ?_, ?_, ?_⟩
  · intro pre rn hpre hrt hrn
    simp [create_formatter, hp, hrt, hpre, hrn]
  · intro pre rt s hpre hrt hne hs
    simp [create_formatter, hp, hrt, hpre, hs, hne]
  · intro s hs
    exact ref_branch_of_ref e p s hp hs
  · intro s ca al pt rn hs hb hca hal hpt hrn
    have hrb := ref_branch_of_ref e p s hp hs
    simp only [ get_prefix, hrb, hca, hal, hpt, hrn]
    rw [if_pos hb]

/-- Witness for claim C9: the create event with `ref_type: "repository"`
renders the repository name; the one with `ref_type: "branch"` and
`ref: "refs/heads/main"` gets branch `main` in its prefix and renders the
ref. -/
theorem claim_C9_witness :
    create_formatter evRepoW9 =
      some ["2024-05-01 09:00:00+02:00 alice/Create\talice/newrepo - repository alice/newrepo"]
    ∧ get_prefix evBranchW9 =
        some "2024-05-01 09:00:00+02:00 alice/Create\talice/r:main"
    ∧ create_formatter evBranchW9 =
        some ["2024-05-01 09:00:00+02:00 alice/Create\talice/r:main - branch refs/heads/main"] := by
  refine ⟨?_, ?_, ?_⟩
  · have h := (claim_C9 evRepoW9 payloadRepoW9 (by decide)).1
      "2024-05-01 09:00:00+02:00 alice/Create\talice/newrepo" "alice/newrepo"
      (by decide) (by decide) (by decide)
    exact h.trans (by decide)
  · have h := (claim_C9 evBranchW9 payloadBranchW9 (by decide)).2.2.2
      "refs/heads/main" "2024-05-01 09:00:00+02:00" "alice" "Create" "alice/r"
      (by decide) (by decide) (by decide) (by decide) (by decide) (by decide)
    exact h.trans (by decide)
  · have h := (claim_C9 evBranchW9 payloadBranchW9 (by decide)).2.1
      "2024-05-01 09:00:00+02:00 alice/Create\talice/r:main" "branch"
      "refs/heads/main" (by decide) (by decide) (by decide) (by decide)
    exact h.trans (by decide)

/-- Witness for the amended claim C2 at concrete nodes: an email entry is
recorded without descent, a login entry is recorded (with nothing further on
a scalar value). -/
theorem claim_C2_amended_witness :
    find_user_logins (.obj (.cons "email" (.str "x") .nil)) = ([], [.str "x"])
    ∧ find_user_logins (.obj (.cons "login" (.str "y") .nil)) =
        ([.str "y"], []) := by
  have h1 := claim_C2_amended (.str "x") .nil
  have h2 := claim_C2_amended (.str "y") .nil
  exact ⟨h1.1.trans (by decide), h2.2.trans (by decide)⟩

/-- Witness for the amended claim C5 at the specification's own example:
`{"push"}` accepts `"PushEvent"` and rejects `"ForkEvent"`. -/
theorem claim_C5_amended_witness :
    type_ok (parse_events_filter "push") "PushEvent" = true
    ∧ type_ok (parse_events_filter "push") "ForkEvent" = false :=
  ⟨(claim_C5_amended "push" "PushEvent").2.1,
    (claim_C5_amended "push" "ForkEvent").2.2⟩
